import Mathlib

/-!
Verification of the js-source-scopes writer pipeline against its sources
(src/swc.rs, src/scope_name.rs, src/smcache/writer.rs).

The development shallowly embeds the scope-name inference of `swc.rs`, the
name components of `scope_name.rs`, and the cache writer of
`smcache/writer.rs`.  Machine integers are modelled as `Nat`, with an
explicit `% 2^32` wherever the source performs an `as u32` cast.  Strings
interned by the writer are Lean `String`s; the bytes they contribute are
computed by an explicit UTF-8 encoder.
-/

/-- One atom of a qualified scope name (`NameComponentInner` in
scope_name.rs).  An `ast::Ident` is modelled by its symbol text: the byte
span it also carries plays no role in any of the properties below. -/
inductive NameComponent where
  | interp : String → NameComponent
  | ident : String → NameComponent
  | punct : NameComponent
deriving DecidableEq, Repr

/-- The source text of a component (`NameComponent::text` in scope_name.rs):
an interpolation is its own text, an identifier token contributes its symbol,
and a punctuation token contributes the empty string. -/
def NameComponent.text : NameComponent → String
  | .interp s => s
  | .ident s => s
  | .punct => ""

/-- Rendering of a scope name (`impl Display for ScopeName` in
scope_name.rs): the concatenation of the components' text in order. -/
def render (components : List NameComponent) : String :=
  components.foldl (fun acc c => acc ++ c.text) ""

/-- The `ast::Expr` shapes that `infer_name_from_expr` (swc.rs) distinguishes:
an identifier, a member expression (whose property is an identifier or not),
`this`, and every other expression shape. -/
inductive Expr where
  | identE : String → Expr
  | member : Expr → Option String → Expr
  | thisE : Expr
  | otherExpr : Expr
deriving DecidableEq

/-- The `ast::Pat` shapes that the `AssignExpr` arm of `infer_name_from_ctx`
distinguishes: an identifier binding, an expression pattern, and the rest. -/
inductive Pat where
  | identP : String → Pat
  | exprP : Expr → Pat
  | otherPat : Pat
deriving DecidableEq

/-- `ast::PatOrExpr`, the left-hand side of an assignment expression. -/
inductive PatOrExpr where
  | expr : Expr → PatOrExpr
  | pat : Pat → PatOrExpr
deriving DecidableEq

/-- The ancestor-node shapes that `infer_name_from_ctx`, `visit_function` and
`visit_class` (swc.rs) distinguish on the `AstNodePath`.  Each identifier an
arm extracts (`fn_decl.ident`, `class_expr.ident`, `method.key.as_ident()`,
`decl.name.as_ident()`, …) is carried directly by the corresponding
constructor; `other` stands for every parent kind the source skips with its
catch-all arm. -/
inductive Parent where
  | function
  | arrowExpr
  | constructor
  | fnDecl : String → Parent
  | fnExpr : Option String → Parent
  | classDecl : String → Parent
  | classExpr : Option String → Parent
  | methodProp : Option String → Parent
  | keyValueProp : Option String → Parent
  | classMethod : Option String → Parent
  | privateMethod : String → Parent
  | varDeclarator : Option String → Parent
  | assignExpr : PatOrExpr → Parent
  | other
deriving DecidableEq

/-- `push_sep` inside `infer_name_from_ctx` (swc.rs): push a `"."`
interpolation to the front of the name, provided it is not empty. -/
def push_sep (name : List NameComponent) : List NameComponent :=
  if name.isEmpty then name else NameComponent.interp "." :: name

/-- The loop of `infer_name_from_expr` (swc.rs), with the deque built so far
made an explicit accumulator.  An `Ident` pushes its symbol to the front and
returns; a `Member` whose property is an identifier pushes that identifier
and then a `"."` interpolation to the front and continues with the object;
`this` pushes the `"this"` interpolation and returns; anything else fails. -/
def inferNameFromExprGo : Expr → List NameComponent → Option (List NameComponent)
  | .identE sym, scope_name => some (NameComponent.ident sym :: scope_name)
  | .member obj prop, scope_name =>
    let scope_name := match prop with
      | some p => NameComponent.interp "." :: NameComponent.ident p :: scope_name
      | none => scope_name
    inferNameFromExprGo obj scope_name
  | .thisE, scope_name => some (NameComponent.interp "this" :: scope_name)
  | .otherExpr, _ => none

/-- `infer_name_from_expr` (swc.rs): the loop is entered with an empty name. -/
def inferNameFromExpr (e : Expr) : Option (List NameComponent) :=
  inferNameFromExprGo e []

/-- The ancestor loop of `infer_name_from_ctx` (swc.rs).  The list holds the
ancestors nearest-first (the source iterates `path.iter().rev()`); the
accumulator is the scope name built so far.  Scope boundaries abort with
`none`; `ClassDecl`, an identifier `VarDeclarator` and a resolvable
`AssignExpr` terminate with `some`; the remaining arms prepend components
and continue; falling off the end of the path yields `none`. -/
def inferNameFromCtxGo : List Parent → List NameComponent → Option (List NameComponent)
  | [], _ => none
  | p :: rest, scope_name =>
    match p with
    | .function | .arrowExpr | .constructor => none
    | .classExpr oid =>
      match oid with
      | some id => inferNameFromCtxGo rest (NameComponent.ident id :: scope_name)
      | none => inferNameFromCtxGo rest scope_name
    | .classDecl id => some (NameComponent.ident id :: push_sep scope_name)
    | .methodProp oid =>
      match oid with
      | some id => inferNameFromCtxGo rest (NameComponent.ident id :: scope_name)
      | none => inferNameFromCtxGo rest scope_name
    | .keyValueProp oid =>
      match oid with
      | some id => inferNameFromCtxGo rest (NameComponent.ident id :: scope_name)
      | none => inferNameFromCtxGo rest scope_name
    | .classMethod oid =>
      match oid with
      | some id => inferNameFromCtxGo rest (NameComponent.ident id :: scope_name)
      | none => inferNameFromCtxGo rest scope_name
    | .privateMethod id =>
      inferNameFromCtxGo rest
        (NameComponent.interp "#" :: NameComponent.ident id :: scope_name)
    | .varDeclarator oid =>
      match oid with
      | some id => some (NameComponent.ident id :: push_sep scope_name)
      | none => inferNameFromCtxGo rest scope_name
    | .assignExpr left =>
      match left with
      | .expr e =>
        match inferNameFromExpr e with
        | some expr_name => some (expr_name ++ push_sep scope_name)
        | none => inferNameFromCtxGo rest scope_name
      | .pat (.identP id) => some (NameComponent.ident id :: push_sep scope_name)
      | .pat (.exprP e) =>
        match inferNameFromExpr e with
        | some expr_name => some (expr_name ++ push_sep scope_name)
        | none => inferNameFromCtxGo rest scope_name
      | .pat .otherPat => inferNameFromCtxGo rest scope_name
    | .fnDecl _ | .fnExpr _ | .other => inferNameFromCtxGo rest scope_name

/-- `infer_name_from_ctx` (swc.rs): the ancestor loop started with an empty
scope name. -/
def inferNameFromCtx (parents : List Parent) : Option (List NameComponent) :=
  inferNameFromCtxGo parents []

/-- `name_from_ident_or_ctx` (swc.rs): a directly owned identifier becomes
the sole component, otherwise the name is inferred from the ancestors. -/
def nameFromIdentOrCtx (ident : Option String) (parents : List Parent) :
    Option (List NameComponent) :=
  match ident with
  | some id => some [NameComponent.ident id]
  | none => inferNameFromCtx parents

/-- The identifier `visit_function` (swc.rs) takes from the nearest parent:
an `FnDecl` parent always contributes its identifier, an `FnExpr` parent its
optional identifier, and any other parent contributes nothing.  The list is
nearest-first, so the source's `path.last()` is the head. -/
def functionParentIdent : List Parent → Option String
  | Parent.fnDecl id :: _ => some id
  | Parent.fnExpr oid :: _ => oid
  | _ => none

/-- The name `visit_function` (swc.rs) records for a function scope. -/
def visitFunctionName (parents : List Parent) : Option (List NameComponent) :=
  nameFromIdentOrCtx (functionParentIdent parents) parents

/-- The identifier `visit_class` (swc.rs) takes from the nearest parent:
a `ClassDecl` parent always contributes its identifier, a `ClassExpr` parent
its optional identifier, and any other parent contributes nothing. -/
def classParentIdent : List Parent → Option String
  | Parent.classDecl id :: _ => some id
  | Parent.classExpr oid :: _ => oid
  | _ => none

/-- The name `visit_class` (swc.rs) records for a class scope: the name from
`name_from_ident_or_ctx`, with the `"new "` interpolation pushed to the front
whenever a name was obtained at all. -/
def visitClassName (parents : List Parent) : Option (List NameComponent) :=
  match nameFromIdentOrCtx (classParentIdent parents) parents with
  | some name => some (NameComponent.interp "new " :: name)
  | none => none

example : inferNameFromCtx [Parent.varDeclarator (some "name")] =
    some [NameComponent.ident "name"] := by decide

example : render [NameComponent.ident "C", NameComponent.interp ".",
    NameComponent.ident "m"] = "C.m" := by decide

/-- C1 counterexample: inferring the name of the method scope in
`const x = class C { m() {} }` — the ancestor path, nearest-first, is the
`ClassMethod` carrying `m`, the `Class` node (skipped), the `ClassExpr`
carrying `C`, the wrapping expression node (skipped), the `VarDeclarator`
binding `x`, and outer nodes.  The `ClassExpr` arm prepends `C` onto the
non-empty name `[m]` without inserting a `"."` interpolation, so the result
renders as `"x.Cm"` and not `"x.C.m"`: the claimed separator rule fails for
a `ClassExpr` parent with an identifier. -/
theorem classExpr_prepend_without_separator :
    inferNameFromCtx
      [Parent.classMethod (some "m"), Parent.other, Parent.classExpr (some "C"),
       Parent.other, Parent.varDeclarator (some "x"), Parent.other] =
      some [NameComponent.ident "x", NameComponent.interp ".",
        NameComponent.ident "C", NameComponent.ident "m"] ∧
    render [NameComponent.ident "x", NameComponent.interp ".",
        NameComponent.ident "C", NameComponent.ident "m"] = "x.Cm" ∧
    "x.Cm" ≠ "x.C.m" := by
  refine ⟨by decide, by decide, by decide⟩

/-- C1 (amended): during name inference from the ancestor path, the `"."`
interpolation is inserted in front of the existing non-empty components only
by the terminating prepends — a `ClassDecl` parent, a `VarDeclarator` parent
with an identifier binding, and an `AssignExpr` parent with a resolvable
left-hand side, in each of its three forms (an expression LHS, an identifier
pattern, and an expression pattern) — while the continuing prepends
(`ClassExpr` with an identifier, `ClassMethod`, `MethodProp` and
`KeyValueProp` with identifier keys) prepend the identifier with no
separator, and `PrivateMethod` prepends a `"#"` interpolation instead. -/
theorem infer_sep_only_at_terminating_prepends (id : String) (rest : List Parent)
    (acc : List NameComponent) (e : Expr) (expr_name : List NameComponent)
    (h : acc ≠ []) (he : inferNameFromExpr e = some expr_name) :
    inferNameFromCtxGo (Parent.classDecl id :: rest) acc =
      some (NameComponent.ident id :: NameComponent.interp "." :: acc) ∧
    inferNameFromCtxGo (Parent.varDeclarator (some id) :: rest) acc =
      some (NameComponent.ident id :: NameComponent.interp "." :: acc) ∧
    inferNameFromCtxGo (Parent.assignExpr (.expr e) :: rest) acc =
      some (expr_name ++ NameComponent.interp "." :: acc) ∧
    inferNameFromCtxGo (Parent.assignExpr (.pat (.identP id)) :: rest) acc =
      some (NameComponent.ident id :: NameComponent.interp "." :: acc) ∧
    inferNameFromCtxGo (Parent.assignExpr (.pat (.exprP e)) :: rest) acc =
      some (expr_name ++ NameComponent.interp "." :: acc) ∧
    inferNameFromCtxGo (Parent.classExpr (some id) :: rest) acc =
      inferNameFromCtxGo rest (NameComponent.ident id :: acc) ∧
    inferNameFromCtxGo (Parent.classMethod (some id) :: rest) acc =
      inferNameFromCtxGo rest (NameComponent.ident id :: acc) ∧
    inferNameFromCtxGo (Parent.methodProp (some id) :: rest) acc =
      inferNameFromCtxGo rest (NameComponent.ident id :: acc) ∧
    inferNameFromCtxGo (Parent.keyValueProp (some id) :: rest) acc =
      inferNameFromCtxGo rest (NameComponent.ident id :: acc) ∧
    inferNameFromCtxGo (Parent.privateMethod id :: rest) acc =
      inferNameFromCtxGo rest
        (NameComponent.interp "#" :: NameComponent.ident id :: acc) := by
  have hs : push_sep acc = NameComponent.interp "." :: acc := by
    simp [push_sep, h]
  refine ⟨?_, ?_, ?_, ?_, ?_, rfl, rfl, rfl, rfl, rfl⟩ <;>
    simp [inferNameFromCtxGo, hs, he]

theorem infer_sep_only_at_terminating_prepends_witness :
    ([NameComponent.ident "m"] : List NameComponent) ≠ [] ∧
    inferNameFromExpr (Expr.identE "o") = some [NameComponent.ident "o"] ∧
    (inferNameFromCtxGo [Parent.classDecl "a"] [NameComponent.ident "m"] =
      some (NameComponent.ident "a" :: NameComponent.interp "." ::
        [NameComponent.ident "m"]) ∧
    inferNameFromCtxGo [Parent.varDeclarator (some "a")] [NameComponent.ident "m"] =
      some (NameComponent.ident "a" :: NameComponent.interp "." ::
        [NameComponent.ident "m"]) ∧
    inferNameFromCtxGo [Parent.assignExpr (.expr (Expr.identE "o"))]
        [NameComponent.ident "m"] =
      some ([NameComponent.ident "o"] ++ NameComponent.interp "." ::
        [NameComponent.ident "m"]) ∧
    inferNameFromCtxGo [Parent.assignExpr (.pat (.identP "a"))] [NameComponent.ident "m"] =
      some (NameComponent.ident "a" :: NameComponent.interp "." ::
        [NameComponent.ident "m"]) ∧
    inferNameFromCtxGo [Parent.assignExpr (.pat (.exprP (Expr.identE "o")))]
        [NameComponent.ident "m"] =
      some ([NameComponent.ident "o"] ++ NameComponent.interp "." ::
        [NameComponent.ident "m"]) ∧
    inferNameFromCtxGo [Parent.classExpr (some "a")] [NameComponent.ident "m"] =
      inferNameFromCtxGo [] (NameComponent.ident "a" :: [NameComponent.ident "m"]) ∧
    inferNameFromCtxGo [Parent.classMethod (some "a")] [NameComponent.ident "m"] =
      inferNameFromCtxGo [] (NameComponent.ident "a" :: [NameComponent.ident "m"]) ∧
    inferNameFromCtxGo [Parent.methodProp (some "a")] [NameComponent.ident "m"] =
      inferNameFromCtxGo [] (NameComponent.ident "a" :: [NameComponent.ident "m"]) ∧
    inferNameFromCtxGo [Parent.keyValueProp (some "a")] [NameComponent.ident "m"] =
      inferNameFromCtxGo [] (NameComponent.ident "a" :: [NameComponent.ident "m"]) ∧
    inferNameFromCtxGo [Parent.privateMethod "a"] [NameComponent.ident "m"] =
      inferNameFromCtxGo []
        (NameComponent.interp "#" :: NameComponent.ident "a" ::
          [NameComponent.ident "m"])) :=
  ⟨by decide, by decide,
   infer_sep_only_at_terminating_prepends "a" [] [NameComponent.ident "m"]
     (Expr.identE "o") [NameComponent.ident "o"] (by decide) (by decide)⟩

/-- C2 counterexample: for `class C { m() { function () {} } }` the ancestor
path of the inner anonymous function contains, nearest-first, its immediate
function-expression wrapper, the statement and block nodes, the `Function`
node of the method `m`, the `ClassMethod` carrying `m`, the `Class` node, and
the `ClassDecl` carrying `C`.  The inference loop aborts with `none` at the
enclosing `Function` scope boundary, so the inner anonymous function gets no
name at all — in particular its inferred name does not render as `"C.m"`. -/
theorem inner_anonymous_function_not_C_m :
    visitFunctionName
      [Parent.fnExpr none, Parent.other, Parent.other, Parent.function,
       Parent.classMethod (some "m"), Parent.other, Parent.classDecl "C",
       Parent.other] = none ∧
    (visitFunctionName
      [Parent.fnExpr none, Parent.other, Parent.other, Parent.function,
       Parent.classMethod (some "m"), Parent.other, Parent.classDecl "C",
       Parent.other]).map render ≠ some "C.m" := by
  refine ⟨by decide, by decide⟩

/-- C2 (amended): for `class C { m() { function () {} } }`, scope-name
inference applied to the inner anonymous function aborts at the enclosing
`Function` boundary and yields no name, while the method scope of `m` itself
is the one whose inferred name renders as `"C.m"` (the `ClassMethod` arm
prepends `m`, then the `ClassDecl` arm prepends a `"."` and `C`). -/
theorem inner_anonymous_function_unnamed_method_named :
    visitFunctionName
      [Parent.fnExpr none, Parent.other, Parent.other, Parent.function,
       Parent.classMethod (some "m"), Parent.other, Parent.classDecl "C",
       Parent.other] = none ∧
    visitFunctionName
      [Parent.classMethod (some "m"), Parent.other, Parent.classDecl "C",
       Parent.other] =
      some [NameComponent.ident "C", NameComponent.interp ".",
        NameComponent.ident "m"] ∧
    render [NameComponent.ident "C", NameComponent.interp ".",
      NameComponent.ident "m"] = "C.m" := by
  refine ⟨by decide, by decide, by decide⟩

/-- The UTF-8 byte length of a source text, modelled as a list of characters
(`str::len` in Rust counts UTF-8 bytes). -/
def byteLen (source : List Char) : Nat :=
  (source.map Char.utf8Size).sum

/-- The byte offsets at which the second and later lines of the Rust iterator
`source.lines()` begin (writer.rs `line_offsets` maps each line to
`line.as_ptr().offset_from(buf_ptr)`).  Rust `str::lines` splits at `'\n'`
(consuming a preceding `'\r'` as part of a `"\r\n"` terminator but never
splitting at a lone `'\r'`), and a trailing terminator opens no further line,
so a new line begins one byte after every `'\n'` that is not the last
character. -/
def restOffsets : List Char → Nat → List Nat
  | [], _ => []
  | c :: cs, pos =>
    if c = '\n' then
      match cs with
      | [] => []
      | _ :: _ => (pos + 1) :: restOffsets cs (pos + 1)
    else restOffsets cs (pos + c.utf8Size)

/-- The byte offsets of all lines of `source.lines()`: the first line begins
at the iteration's start offset when the text is non-empty. -/
def linesOffsets (source : List Char) (pos : Nat) : List Nat :=
  match source with
  | [] => []
  | _ :: _ => pos :: restOffsets source pos

/-- `line_offsets` (writer.rs): one offset per line of `source.lines()`,
then an extra `len` entry when the source ends with `'\n'` (Rust
`ends_with('\n')`), then always a terminating `len` entry. -/
def line_offsets (source : List Char) : List Nat :=
  linesOffsets source 0 ++
    (if source.getLast? = some '\n' then [byteLen source] else []) ++
    [byteLen source]

/-- Line splitting as claim C3 words it, where CR, LF and CRLF each terminate
a line: the byte offsets at which the second and later logical lines begin.
This definition follows the claim's words, for comparison with `restOffsets`
which is translated from the source. -/
def restOffsetsClaim : List Char → Nat → List Nat
  | [], _ => []
  | ['\r', '\n'], _ => []
  | '\r' :: '\n' :: c :: cs, pos => (pos + 2) :: restOffsetsClaim (c :: cs) (pos + 2)
  | ['\r'], _ => []
  | '\r' :: c :: cs, pos => (pos + 1) :: restOffsetsClaim (c :: cs) (pos + 1)
  | ['\n'], _ => []
  | '\n' :: c :: cs, pos => (pos + 1) :: restOffsetsClaim (c :: cs) (pos + 1)
  | c :: cs, pos => restOffsetsClaim cs (pos + c.utf8Size)

/-- All line-start offsets under the claim's CR/LF/CRLF splitting. -/
def linesOffsetsClaim (source : List Char) (pos : Nat) : List Nat :=
  match source with
  | [] => []
  | _ :: _ => pos :: restOffsetsClaim source pos

/-- Whether the source ends with a newline under the claim's reading, where a
lone CR also counts as a line terminator. -/
def endsWithNewlineClaim (source : List Char) : Bool :=
  match source.getLast? with
  | some c => c = '\n' || c = '\r'
  | none => false

/-- The line-offset list exactly as claim C3 states it: one offset at the
byte start of every line under CR/LF/CRLF splitting, an extra `len` when the
source ends with a newline, and a terminating `len` appended last. -/
def line_offsetsClaim (source : List Char) : List Nat :=
  linesOffsetsClaim source 0 ++
    (if endsWithNewlineClaim source then [byteLen source] else []) ++
    [byteLen source]

/-- Line splitting as the amended claim words it: LF and CRLF each terminate
a line, a lone CR does not.  The byte offsets at which the second and later
logical lines begin. -/
def restOffsetsAmended : List Char → Nat → List Nat
  | [], _ => []
  | ['\r', '\n'], _ => []
  | '\r' :: '\n' :: c :: cs, pos => (pos + 2) :: restOffsetsAmended (c :: cs) (pos + 2)
  | '\r' :: cs, pos => restOffsetsAmended cs (pos + 1)
  | ['\n'], _ => []
  | '\n' :: c :: cs, pos => (pos + 1) :: restOffsetsAmended (c :: cs) (pos + 1)
  | c :: cs, pos => restOffsetsAmended cs (pos + c.utf8Size)

/-- All line-start offsets under the amended claim's LF/CRLF splitting. -/
def linesOffsetsAmended (source : List Char) (pos : Nat) : List Nat :=
  match source with
  | [] => []
  | _ :: _ => pos :: restOffsetsAmended source pos

/-- The line-offset list as the amended claim states it: one offset at the
byte start of every line under LF/CRLF splitting (a lone CR terminates no
line), an extra `len` when the source ends with `'\n'`, and a terminating
`len` appended last. -/
def line_offsetsAmended (source : List Char) : List Nat :=
  linesOffsetsAmended source 0 ++
    (if source.getLast? = some '\n' then [byteLen source] else []) ++
    [byteLen source]

example : line_offsets "\n".toList = [0, 1, 1] := by decide

example : line_offsets "a\n\nb\nc".toList = [0, 2, 3, 5, 6] := by decide

example : line_offsets "a\n\nb\nc\n".toList = [0, 2, 3, 5, 7, 7] := by decide

/-- C3 counterexample: on the source `"a\rb"` the writer's `line_offsets`
yields `[0, 3]` — a lone CR does not terminate a line in Rust's
`str::lines` — while the claim's CR/LF/CRLF splitting demands `[0, 2, 3]`. -/
theorem line_offsets_lone_cr_not_terminator :
    line_offsets ['a', '\r', 'b'] = [0, 3] ∧
    line_offsetsClaim ['a', '\r', 'b'] = [0, 2, 3] ∧
    line_offsets ['a', '\r', 'b'] ≠ line_offsetsClaim ['a', '\r', 'b'] := by
  refine ⟨by decide, by decide, by decide⟩

/-- Auxiliary: the source's line splitting and the amended claim's LF/CRLF
splitting produce the same line-start offsets. -/
theorem restOffsets_eq_amended (cs : List Char) (pos : Nat) :
    restOffsets cs pos = restOffsetsAmended cs pos := by
  induction cs, pos using restOffsetsAmended.induct <;>
    first
      | (simp_all [restOffsets, restOffsetsAmended, Char.utf8Size]; done)
      | (rename_i c cs pos h1 h2 hr hn1 hn2 ih
         have hc : c ≠ '\n' := by
           intro h
           cases cs with
           | nil => exact hn1 h rfl
           | cons d ds => exact hn2 d ds h rfl
         simp_all [restOffsets, restOffsetsAmended, Char.utf8Size])

/-- C3 (amended): for every source string, `line_offsets` emits one offset
at the byte start of every line obtained by logical line splitting in which
LF and CRLF each terminate a line but a lone CR does not; if the source ends
with `'\n'` an extra `len` entry is appended for the empty final line; and a
terminating `len` entry is always appended last — i.e. `line_offsets`
coincides with the amended claim's `line_offsetsAmended` on all inputs. -/
theorem line_offsets_lf_crlf_splitting (source : List Char) :
    line_offsets source = line_offsetsAmended source := by
  unfold line_offsets line_offsetsAmended linesOffsets linesOffsetsAmended
  cases source with
  | nil => rfl
  | cons c cs => rw [restOffsets_eq_amended]

/-- Modelled from the spec: `SourcePosition` lives in the crate root, which
is not among the provided sources.  Per §3 of the spec it is a pair of a
zero-based line and a UTF-16 column, ordered lexicographically. -/
structure SourcePosition where
  line : Nat
  column : Nat
deriving DecidableEq, Repr

/-- The lexicographic strict order on `SourcePosition` (the derived `Ord`
on the Rust struct compares `line`, then `column`). -/
def posLt (a b : SourcePosition) : Prop :=
  a.line < b.line ∨ (a.line = b.line ∧ a.column < b.column)

instance (a b : SourcePosition) : Decidable (posLt a b) := by
  unfold posLt
  exact inferInstance

/-- `ScopeLookupResult` (scope_index.rs, declared in the crate but used by
writer.rs): a named scope carrying the resolved name, an anonymous scope, or
an unknown region. -/
inductive ScopeLookupResult where
  | namedScope : String → ScopeLookupResult
  | anonymousScope
  | unknown
deriving DecidableEq, Repr

/-- Models `scope_index.binary_search_by_key(&sp, |idx| &idx.0)` at
writer.rs:94 through the documented result of Rust's slice binary search on
a slice sorted by the key (the projected scope index is sorted and holds at
most one entry per position): `.ok i` when the key at index `i` equals `sp`,
otherwise `.error` with the insertion point, found here by a linear scan. -/
def searchIdx : List (SourcePosition × ScopeLookupResult) → SourcePosition → Nat →
    Except Nat Nat
  | [], _, i => .error i
  | e :: rest, sp, i =>
    if posLt e.1 sp then searchIdx rest sp (i + 1)
    else if e.1 = sp then .ok i else .error i

/-- The index part of the `lookup_scope` closure (writer.rs:94-102): a hit
returns its own index, a miss at insertion point `0` is clamped to `0`, any
other miss steps back one entry; the entry at the resulting index answers the
query, and an out-of-range index (only possible for an empty projected
index) answers `Unknown`. -/
def lookupInIndex (scope_index : List (SourcePosition × ScopeLookupResult))
    (sp : SourcePosition) : ScopeLookupResult :=
  let idx := match searchIdx scope_index sp 0 with
    | .ok idx => idx
    | .error 0 => 0
    | .error idx => idx - 1
  match scope_index.get? idx with
  | some r => r.2
  | none => ScopeLookupResult.unknown

/-- The `lookup_scope` closure (writer.rs:80-103).  The decoded source map is
represented by what the closure consumes of it: `some get_original_function_name`
when it is a Hermes variant (carrying the Hermes function-name table keyed by
bytecode offset), `none` otherwise.  For a Hermes map with an empty projected
scope index, the Hermes table is consulted with the token's column and the
index is not; in every other case the projected index answers the query. -/
def lookupScope (hermes : Option (Nat → Option String))
    (scope_index : List (SourcePosition × ScopeLookupResult))
    (sp : SourcePosition) : ScopeLookupResult :=
  match hermes with
  | some get_original_function_name =>
    if scope_index.isEmpty then
      match get_original_function_name sp.column with
      | some name => ScopeLookupResult.namedScope name
      | none => ScopeLookupResult.unknown
    else lookupInIndex scope_index sp
  | none => lookupInIndex scope_index sp

/-- Auxiliary: `posLt` is asymmetric. -/
theorem posLt_asymm {a b : SourcePosition} (h : posLt a b) : ¬posLt b a := by
  unfold posLt at *
  omega

/-- Auxiliary: `posLt` is irreflexive, so a strictly smaller query never
equals the entry key. -/
theorem posLt_ne {a b : SourcePosition} (h : posLt a b) : b ≠ a := by
  intro he
  subst he
  unfold posLt at h
  omega

/-- C4 counterexample: with a projected scope index whose single entry
starts at line 1 and a queried position at line 0 — strictly smaller than
the first entry's start — the writer's lookup returns that first entry's
result, not `Unknown`: the `Err(0) => 0` arm clamps the insertion point to
the first entry. -/
theorem lookup_scope_before_first_entry_not_unknown :
    lookupScope none [(⟨1, 0⟩, ScopeLookupResult.namedScope "f")] ⟨0, 0⟩ =
      ScopeLookupResult.namedScope "f" ∧
    lookupScope none [(⟨1, 0⟩, ScopeLookupResult.namedScope "f")] ⟨0, 0⟩ ≠
      ScopeLookupResult.unknown := by
  refine ⟨by decide, by decide⟩

/-- C4 (amended): a query on an empty projected scope index returns
`Unknown`; a query strictly smaller than the start position of the first
entry of a non-empty projected index returns the first entry's result (the
miss at insertion point `0` is clamped to entry `0`), not `Unknown`. -/
theorem lookup_scope_before_first_entry :
    (∀ sp : SourcePosition, lookupScope none [] sp = ScopeLookupResult.unknown) ∧
    (∀ (e : SourcePosition × ScopeLookupResult)
       (rest : List (SourcePosition × ScopeLookupResult)) (sp : SourcePosition),
       posLt sp e.1 → lookupScope none (e :: rest) sp = e.2) := by
  constructor
  · intro sp
    rfl
  · intro e rest sp h
    simp only [lookupScope, lookupInIndex, searchIdx, if_neg (posLt_asymm h),
      if_neg (posLt_ne h)]
    rfl

theorem lookup_scope_before_first_entry_witness :
    posLt ⟨0, 0⟩ (⟨1, 0⟩ : SourcePosition) ∧
    lookupScope none [(⟨1, 0⟩, ScopeLookupResult.anonymousScope)] ⟨0, 0⟩ =
      ScopeLookupResult.anonymousScope :=
  ⟨by decide,
   lookup_scope_before_first_entry.2 (⟨1, 0⟩, ScopeLookupResult.anonymousScope)
     [] ⟨0, 0⟩ (by decide)⟩

/-- C9: for a Hermes source map with an empty projected scope index, the
lookup consults the Hermes original-function-name table with the token's
minified column as the bytecode offset; a returned name yields `NamedScope`
of that name and no name yields `Unknown` — the scope index plays no part. -/
theorem hermes_empty_index_fallback
    (get_original_function_name : Nat → Option String) (sp : SourcePosition) :
    lookupScope (some get_original_function_name) [] sp =
      ((get_original_function_name sp.column).elim ScopeLookupResult.unknown
        ScopeLookupResult.namedScope) := by
  cases hE : get_original_function_name sp.column <;> simp [lookupScope, hE]

/-- Modelled from the spec: the sentinel constants live in smcache/raw.rs,
which is not among the provided sources.  Per §3 of the spec,
`NO_FILE_SENTINEL = u32::MAX` marks an unknown original file. -/
def NO_FILE_SENTINEL : Nat := 4294967295

/-- Modelled from the spec: `GLOBAL_SCOPE_SENTINEL = u32::MAX - 1` marks the
global or unknown scope (smcache/raw.rs, not among the provided sources). -/
def GLOBAL_SCOPE_SENTINEL : Nat := 4294967294

/-- Modelled from the spec: `ANONYMOUS_SCOPE_SENTINEL = u32::MAX` marks an
anonymous scope (smcache/raw.rs, not among the provided sources). -/
def ANONYMOUS_SCOPE_SENTINEL : Nat := 4294967295

/-- The UTF-8 encoding of one character, as byte values (what Rust
`s.bytes()` yields per char). -/
def utf8EncodeChar (c : Char) : List Nat :=
  let v := c.toNat
  if v < 128 then [v]
  else if v < 2048 then [192 + v / 64, 128 + v % 64]
  else if v < 65536 then [224 + v / 4096, 128 + v / 64 % 64, 128 + v % 64]
  else [240 + v / 262144, 128 + v / 4096 % 64, 128 + v / 64 % 64, 128 + v % 64]

/-- The UTF-8 bytes of a string (Rust `s.bytes()`); its length is Rust's
`s.len()`. -/
def utf8Bytes (s : String) : List Nat :=
  (s.toList.map utf8EncodeChar).flatten

/-- LEB128 unsigned encoding (`leb128::write::unsigned` in writer.rs): seven
value bits per byte, least significant group first, high bit set on every
byte but the last. -/
def leb128 (n : Nat) : List Nat :=
  if n < 128 then [n] else (n % 128 + 128) :: leb128 (n / 128)
termination_by n
decreasing_by exact Nat.div_lt_self (by omega) (by omega)

example : utf8Bytes "ab" = [97, 98] := by decide

example : leb128 300 = [172, 2] := by
  rw [leb128, if_neg (by omega), leb128]
  norm_num

/-- The interner's state (writer.rs `SmCacheWriter::new`): the growing
`string_bytes` buffer and the `strings` offset cache.  The `HashMap` is
modelled as an association list searched front-first, which has the same
lookup semantics because each key is inserted at most once. -/
structure InternerState where
  string_bytes : List Nat
  strings : List (String × Nat)
deriving DecidableEq, Repr

/-- `SmCacheWriter::insert_string` (writer.rs:197-215): the empty string
yields `u32::MAX` and leaves the state unchanged; a cached string yields its
cached offset and leaves the state unchanged; otherwise the LEB128 length
prefix and the UTF-8 bytes are appended to `string_bytes`, and the offset of
`string_bytes` before the append (cast `as u32`) is recorded and returned. -/
def insertString (st : InternerState) (s : String) : Nat × InternerState :=
  if s = "" then (4294967295, st)
  else
    match List.lookup s st.strings with
    | some offset => (offset, st)
    | none =>
      let string_offset := st.string_bytes.length % 4294967296
      (string_offset,
        ⟨st.string_bytes ++ leb128 (utf8Bytes s).length ++ utf8Bytes s,
         (s, string_offset) :: st.strings⟩)

/-- C6: interning the empty string returns `u32::MAX` and changes nothing;
re-interning a non-empty string returns the first insertion's offset and
appends no bytes; a first insertion of a non-empty uncached string appends
the LEB128 length prefix followed by the string's UTF-8 bytes and returns
the length of `string_bytes` before the append (as a `u32`). -/
theorem insert_string_contract :
    (∀ st : InternerState, insertString st "" = (4294967295, st)) ∧
    (∀ (st : InternerState) (s : String), s ≠ "" →
      insertString (insertString st s).2 s = insertString st s) ∧
    (∀ (st : InternerState) (s : String), s ≠ "" →
      List.lookup s st.strings = none →
      insertString st s = (st.string_bytes.length % 4294967296,
        ⟨st.string_bytes ++ leb128 (utf8Bytes s).length ++ utf8Bytes s,
         (s, st.string_bytes.length % 4294967296) :: st.strings⟩)) := by
  refine ⟨fun st => rfl, fun st s hs => ?_, fun st s hs hL => by
    simp [insertString, hs, hL]⟩
  rcases hL : List.lookup s st.strings with _ | o
  · have h1 : insertString st s = (st.string_bytes.length % 4294967296,
        ⟨st.string_bytes ++ leb128 (utf8Bytes s).length ++ utf8Bytes s,
         (s, st.string_bytes.length % 4294967296) :: st.strings⟩) := by
      simp [insertString, hs, hL]
    rw [h1]
    simp [insertString, hs, List.lookup]
  · have h1 : insertString st s = (o, st) := by
      simp [insertString, hs, hL]
    rw [h1]
    exact h1

theorem insert_string_contract_witness :
    insertString ⟨[], []⟩ "" = (4294967295, (⟨[], []⟩ : InternerState)) ∧
    ("ab" ≠ "" ∧
      insertString (insertString ⟨[], []⟩ "ab").2 "ab" =
        insertString ⟨[], []⟩ "ab") ∧
    ("ab" ≠ "" ∧ List.lookup "ab" ([] : List (String × Nat)) = none ∧
      insertString ⟨[], []⟩ "ab" =
        (0, ⟨leb128 (utf8Bytes "ab").length ++ utf8Bytes "ab", [("ab", 0)]⟩)) :=
  ⟨insert_string_contract.1 ⟨[], []⟩,
   ⟨by decide, insert_string_contract.2.1 ⟨[], []⟩ "ab" (by decide)⟩,
   ⟨by decide, rfl, insert_string_contract.2.2 ⟨[], []⟩ "ab" (by decide) rfl⟩⟩

/-- Modelled from the spec: `raw::MinifiedSourcePosition` lives in
smcache/raw.rs, which is not among the provided sources; per §3 it is a pair
of `u32` line and column. -/
structure MinifiedSourcePosition where
  line : Nat
  column : Nat
deriving DecidableEq, Repr

/-- Modelled from the spec: `raw::OriginalSourceLocation` lives in
smcache/raw.rs, which is not among the provided sources; per §3 it is a
`u32` file index, line, and scope index. -/
structure OriginalSourceLocation where
  file_idx : Nat
  line : Nat
  scope_idx : Nat
deriving DecidableEq, Repr

/-- One source-map token as the mapping loop of `SmCacheWriter::new`
consumes it: `get_dst()` (the minified position), `get_source()` (the
optional original file name) and `get_src_line()` (the original line). -/
structure Token where
  dstLine : Nat
  dstCol : Nat
  file : Option String
  srcLine : Nat

/-- The `file_idx` computation of the mapping loop (writer.rs:146-152):
a binary search for the token's file name in the name-sorted file table
(modelled by its documented result, the index of the matching name, found
here by a linear scan), `NO_FILE_SENTINEL` on a miss or a missing name. -/
def fileIdxOf (files : List String) (file : Option String) : Nat :=
  match file with
  | some f =>
    match files.findIdx? (· = f) with
    | some idx => idx % 4294967296
    | none => NO_FILE_SENTINEL
  | none => NO_FILE_SENTINEL

/-- The `scope_idx` computation of the mapping loop (writer.rs:154-161):
a named scope interns its name, clamped to `GLOBAL_SCOPE_SENTINEL`; an
anonymous scope and an unknown scope map to their sentinels without touching
the interner. -/
def scopeIdxOf : ScopeLookupResult → InternerState → Nat × InternerState
  | .namedScope name, st =>
    let r := insertString st name
    (min r.1 GLOBAL_SCOPE_SENTINEL, r.2)
  | .anonymousScope, st => (ANONYMOUS_SCOPE_SENTINEL, st)
  | .unknown, st => (GLOBAL_SCOPE_SENTINEL, st)

/-- One iteration of the mapping loop (writer.rs:139-167) up to the
deduplication check: the token's `OriginalSourceLocation` and the interner
state after a possible name interning. -/
def tokenLocation (lookup : SourcePosition → ScopeLookupResult)
    (files : List String) (t : Token) (st : InternerState) :
    OriginalSourceLocation × InternerState :=
  let sp : SourcePosition := ⟨t.dstLine, t.dstCol⟩
  let scope := lookup sp
  let r := scopeIdxOf scope st
  (⟨fileIdxOf files t.file, t.srcLine, r.1⟩, r.2)

/-- The mapping loop of `SmCacheWriter::new` (writer.rs:138-180): tokens are
processed in order with the `last` emitted location threaded through; a token
whose `OriginalSourceLocation` equals `last` is skipped (its interner effect
kept), every other token pushes `(minified position, location)` and becomes
the new `last`. -/
def processTokens (lookup : SourcePosition → ScopeLookupResult)
    (files : List String) :
    List Token → Option OriginalSourceLocation → InternerState →
    List (MinifiedSourcePosition × OriginalSourceLocation) × InternerState
  | [], _, st => ([], st)
  | t :: rest, last, st =>
    let r := tokenLocation lookup files t st
    if last = some r.1 then
      processTokens lookup files rest last r.2
    else
      let p := processTokens lookup files rest (some r.1) r.2
      ((⟨t.dstLine, t.dstCol⟩, r.1) :: p.1, p.2)

/-- Auxiliary: the first entry the mapping loop emits never carries the
`last` location it started from. -/
theorem processTokens_head_ne (lookup : SourcePosition → ScopeLookupResult)
    (files : List String) :
    ∀ (tokens : List Token) (last : Option OriginalSourceLocation)
      (st : InternerState) (e : MinifiedSourcePosition × OriginalSourceLocation),
      (processTokens lookup files tokens last st).1.head? = some e →
      last ≠ some e.2 := by
  intro tokens
  induction tokens with
  | nil =>
    intro last st e h
    simp [processTokens] at h
  | cons t rest ih =>
    intro last st e h
    rw [processTokens] at h
    split at h
    · exact ih _ _ _ h
    · rename_i hne
      simp only [List.head?_cons, Option.some.injEq] at h
      subst h
      exact hne

/-- C5: in the mappings table, consecutive entries always differ in their
`OriginalSourceLocation`; a token whose location equals the immediately
previously emitted one is skipped entirely (no entry is pushed, though its
interner effect remains); and the deduplication compares only against the
immediate predecessor — the same location may reappear later, as the
concrete run with locations A, B, A shows. -/
theorem mappings_adjacent_dedup :
    (∀ (lookup : SourcePosition → ScopeLookupResult) (files : List String)
       (tokens : List Token) (last : Option OriginalSourceLocation)
       (st : InternerState),
       List.Chain' (fun a b => a.2 ≠ b.2)
         (processTokens lookup files tokens last st).1) ∧
    (∀ (lookup : SourcePosition → ScopeLookupResult) (files : List String)
       (t : Token) (rest : List Token) (last : Option OriginalSourceLocation)
       (st : InternerState),
       last = some (tokenLocation lookup files t st).1 →
       processTokens lookup files (t :: rest) last st =
         processTokens lookup files rest last (tokenLocation lookup files t st).2) ∧
    (List.map (fun e => e.2)
        (processTokens (fun _ => ScopeLookupResult.unknown) []
          [⟨0, 0, none, 0⟩, ⟨0, 1, none, 1⟩, ⟨0, 2, none, 0⟩] none ⟨[], []⟩).1 =
      [⟨NO_FILE_SENTINEL, 0, GLOBAL_SCOPE_SENTINEL⟩,
       ⟨NO_FILE_SENTINEL, 1, GLOBAL_SCOPE_SENTINEL⟩,
       ⟨NO_FILE_SENTINEL, 0, GLOBAL_SCOPE_SENTINEL⟩]) := by
  refine ⟨fun lookup files tokens => ?_, fun lookup files t rest last st h => ?_, by decide⟩
  · induction tokens with
    | nil =>
      intro last st
      simp [processTokens]
    | cons t rest ih =>
      intro last st
      rw [processTokens]
      split
      · exact ih _ _
      · rw [List.chain'_cons']
        refine ⟨fun b hb => ?_, ih _ _⟩
        have := processTokens_head_ne lookup files rest
          (some (tokenLocation lookup files t st).1) (tokenLocation lookup files t st).2 b hb
        simpa using this
  · rw [processTokens, if_pos h]

theorem mappings_adjacent_dedup_witness :
    (some (⟨NO_FILE_SENTINEL, 5, GLOBAL_SCOPE_SENTINEL⟩ : OriginalSourceLocation) =
      some (tokenLocation (fun _ => ScopeLookupResult.unknown) []
        ⟨0, 0, none, 5⟩ ⟨[], []⟩).1) ∧
    processTokens (fun _ => ScopeLookupResult.unknown) [] [⟨0, 0, none, 5⟩]
        (some ⟨NO_FILE_SENTINEL, 5, GLOBAL_SCOPE_SENTINEL⟩) ⟨[], []⟩ =
      processTokens (fun _ => ScopeLookupResult.unknown) [] []
        (some ⟨NO_FILE_SENTINEL, 5, GLOBAL_SCOPE_SENTINEL⟩)
        (tokenLocation (fun _ => ScopeLookupResult.unknown) []
          ⟨0, 0, none, 5⟩ ⟨[], []⟩).2 :=
  ⟨by decide,
   mappings_adjacent_dedup.2.1 (fun _ => ScopeLookupResult.unknown) []
     ⟨0, 0, none, 5⟩ [] (some ⟨NO_FILE_SENTINEL, 5, GLOBAL_SCOPE_SENTINEL⟩)
     ⟨[], []⟩ (by decide)⟩

/-- Little-endian byte encoding of a `u32` value (the output format is
little-endian throughout). -/
def u32le (n : Nat) : List Nat :=
  [n % 256, n / 256 % 256, n / 65536 % 256, n / 16777216 % 256]

/-- Modelled from the spec: `raw::File` lives in smcache/raw.rs, which is
not among the provided sources; per §3 it is four `u32` fields. -/
structure RawFile where
  name_offset : Nat
  source_offset : Nat
  line_offsets_start : Nat
  line_offsets_end : Nat
deriving DecidableEq, Repr

/-- Modelled from the spec: the cache magic, `u32::from_le_bytes(*b"SMCA")`
— the bytes `0x53 0x4D 0x43 0x41` read as a little-endian `u32`
(smcache/raw.rs is not among the provided sources). -/
def SMCACHE_MAGIC : Nat := 1094929747

example : u32le SMCACHE_MAGIC = [83, 77, 67, 65] := by decide

/-- Modelled from the spec: the current cache version (§6). -/
def SMCACHE_VERSION : Nat := 2

/-- Modelled from the spec: the `as_bytes` layout of `raw::Header` per §6 —
six little-endian `u32` fields followed by eight reserved zero bytes
(smcache/raw.rs is not among the provided sources). -/
def headerBytes (num_mappings num_files num_line_offsets string_bytes : Nat) :
    List Nat :=
  u32le SMCACHE_MAGIC ++ u32le SMCACHE_VERSION ++ u32le num_mappings ++
    u32le num_files ++ u32le num_line_offsets ++ u32le string_bytes ++
    List.replicate 8 0

/-- Modelled from the spec: the `as_bytes` layout of
`raw::MinifiedSourcePosition`, two little-endian `u32`s (§6). -/
def minPosBytes (p : MinifiedSourcePosition) : List Nat :=
  u32le p.line ++ u32le p.column

/-- Modelled from the spec: the `as_bytes` layout of
`raw::OriginalSourceLocation`, three little-endian `u32`s (§6). -/
def origLocBytes (o : OriginalSourceLocation) : List Nat :=
  u32le o.file_idx ++ u32le o.line ++ u32le o.scope_idx

/-- Modelled from the spec: the `as_bytes` layout of `raw::File`, four
little-endian `u32`s (§6). -/
def fileBytes (f : RawFile) : List Nat :=
  u32le f.name_offset ++ u32le f.source_offset ++
    u32le f.line_offsets_start ++ u32le f.line_offsets_end

/-- Modelled from the spec: `raw::align_to_eight` (smcache/raw.rs is not
among the provided sources): the number of padding bytes that brings a
position to the next multiple of eight, zero when already aligned. -/
def align_to_eight (pos : Nat) : Nat :=
  (8 - pos % 8) % 8

/-- The state of `WriteWrapper` (writer.rs:304-329), together with the bytes
written so far. -/
structure WState where
  out : List Nat
  position : Nat

/-- `WriteWrapper::write` (writer.rs:317-322): append the data and advance
the position by its length. -/
def wwrite (st : WState) (data : List Nat) : WState :=
  ⟨st.out ++ data, st.position + data.length⟩

/-- `WriteWrapper::align` (writer.rs:324-328): write `align_to_eight` zero
bytes taken from a zeroed buffer. -/
def walign (st : WState) : WState :=
  wwrite st (List.replicate (align_to_eight st.position) 0)

/-- The frozen data of `SmCacheWriter` (writer.rs:16-21) as `serialize`
consumes it. -/
structure SmCacheWriter where
  string_bytes : List Nat
  files : List RawFile
  line_offsets : List Nat
  mappings : List (MinifiedSourcePosition × OriginalSourceLocation)

/-- The writer state after the header section and its alignment padding
(`serialize`, writer.rs:233-234); its position is where the
`min_positions` section starts. -/
def stHeader (w : SmCacheWriter) : WState :=
  walign (wwrite ⟨[], 0⟩ (headerBytes (w.mappings.length % 4294967296)
    (w.files.length % 4294967296) (w.line_offsets.length % 4294967296)
    (w.string_bytes.length % 4294967296)))

/-- The state after the `min_positions` section and its padding
(writer.rs:236-239); its position is where `orig_locations` starts. -/
def stMinPos (w : SmCacheWriter) : WState :=
  walign (w.mappings.foldl (fun st m => wwrite st (minPosBytes m.1)) (stHeader w))

/-- The state after the `orig_locations` section and its padding
(writer.rs:241-244); its position is where the `files` section starts. -/
def stOrigLoc (w : SmCacheWriter) : WState :=
  walign (w.mappings.foldl (fun st m => wwrite st (origLocBytes m.2)) (stMinPos w))

/-- The state after the `files` section and its padding (writer.rs:246-247);
its position is where the `line_offsets` section starts. -/
def stFiles (w : SmCacheWriter) : WState :=
  walign (wwrite (stOrigLoc w) ((w.files.map fileBytes).flatten))

/-- The state after the `line_offsets` section and its padding
(writer.rs:249-250); its position is where the `string_bytes` section
starts. -/
def stLineOffsets (w : SmCacheWriter) : WState :=
  walign (wwrite (stFiles w) ((w.line_offsets.map u32le).flatten))

/-- `SmCacheWriter::serialize` (writer.rs:220-255): header, `min_positions`,
`orig_locations`, `files` and `line_offsets`, each followed by alignment
padding, then the raw `string_bytes`. -/
def serialize (w : SmCacheWriter) : WState :=
  wwrite (stLineOffsets w) w.string_bytes

/-- Auxiliary: writing keeps the position equal to the length of the bytes
written so far. -/
theorem wwrite_position_eq (st : WState) (data : List Nat)
    (h : st.position = st.out.length) :
    (wwrite st data).position = (wwrite st data).out.length := by
  simp [wwrite, h]

/-- Auxiliary: aligning lands the position on a multiple of eight. -/
theorem walign_position_mod (st : WState) : (walign st).position % 8 = 0 := by
  simp only [walign, wwrite, List.length_replicate, align_to_eight]
  omega

/-- Auxiliary: a fold of section-element writes preserves the
position-equals-length invariant. -/
theorem foldl_wwrite_position_eq {α : Type} (g : α → List Nat) (l : List α)
    (st : WState) (h : st.position = st.out.length) :
    (l.foldl (fun st m => wwrite st (g m)) st).position =
      (l.foldl (fun st m => wwrite st (g m)) st).out.length := by
  induction l generalizing st with
  | nil => exact h
  | cons x xs ih => exact ih _ (wwrite_position_eq st (g x) h)

/-- C7: every section of the serialized byte stream — header,
`min_positions`, `orig_locations`, `files`, `line_offsets`, `string_bytes` —
starts at a byte offset that is a multiple of eight (the header at offset 0,
each later section at the position reached after the preceding section's
alignment, positions which coincide with the length of the bytes emitted so
far), and each alignment step appends exactly `align_to_eight` zero bytes to
reach the next 8-byte boundary. -/
theorem serialize_sections_aligned (w : SmCacheWriter) :
    (0 : Nat) % 8 = 0 ∧
    (stHeader w).position % 8 = 0 ∧
    (stMinPos w).position % 8 = 0 ∧
    (stOrigLoc w).position % 8 = 0 ∧
    (stFiles w).position % 8 = 0 ∧
    (stLineOffsets w).position % 8 = 0 ∧
    (∀ st : WState,
      (walign st).out = st.out ++ List.replicate (align_to_eight st.position) 0 ∧
      (st.position + align_to_eight st.position) % 8 = 0) ∧
    (serialize w).position = (serialize w).out.length := by
  refine ⟨rfl, walign_position_mod _, walign_position_mod _, walign_position_mod _,
    walign_position_mod _, walign_position_mod _,
    fun st => ⟨rfl, by simp only [align_to_eight]; omega⟩, ?_⟩
  apply wwrite_position_eq
  apply wwrite_position_eq
  apply wwrite_position_eq
  apply wwrite_position_eq
  apply wwrite_position_eq
  apply wwrite_position_eq
  apply foldl_wwrite_position_eq
  apply wwrite_position_eq
  apply foldl_wwrite_position_eq
  apply wwrite_position_eq
  apply wwrite_position_eq
  rfl

/-- The scope list the crate's `Scopes` alias denotes and `parse_with_swc`
produces: byte ranges paired with optional scope names. -/
def Scopes : Type := List ((Nat × Nat) × Option (List NameComponent))

/-- `parse_with_swc` (swc.rs:15-37).  The external SWC parser's outcome is
abstracted as an `Except` value and the scope-collecting traversal of a
successfully parsed module as a function: on a parse error the function
returns the empty scope list without signalling any error. -/
def parseWithSwc {α : Type} (parseResult : Except Unit α)
    (collect : α → Scopes) : Scopes :=
  match parseResult with
  | .error _ => []
  | .ok m => collect m

/-- Modelled from the spec: the lookup result a scope's optional resolved
name stands for — `NamedScope` when a name was inferred, `AnonymousScope`
otherwise (§3, `ResolvedScope`). -/
def scopeResult : Option String → ScopeLookupResult
  | some n => ScopeLookupResult.namedScope n
  | none => ScopeLookupResult.anonymousScope

/-- Modelled from the spec: the result of the innermost still-active scope
on the layering stack, `Unknown` when none is active (§4.4). -/
def stackResult : List ((Nat × Nat) × Option String) → ScopeLookupResult
  | [] => ScopeLookupResult.unknown
  | top :: _ => scopeResult top.2

/-- Modelled from the spec: pop the scopes that end at or before `start` off
the layering stack, re-emitting the enclosing result at each popped scope's
end (§4.4). -/
def popFinished (start : Nat) : List ((Nat × Nat) × Option String) →
    List (Nat × ScopeLookupResult) × List ((Nat × Nat) × Option String)
  | [] => ([], [])
  | top :: stk =>
    if top.1.2 ≤ start then
      let r := popFinished start stk
      ((top.1.2, stackResult stk) :: r.1, r.2)
    else ([], top :: stk)

/-- Modelled from the spec: emit the ends of all scopes still active when
the sweep runs out of scopes (§4.4). -/
def drainAll : List ((Nat × Nat) × Option String) → List (Nat × ScopeLookupResult)
  | [] => []
  | top :: stk => (top.1.2, stackResult stk) :: drainAll stk

/-- Modelled from the spec: insert a scope into a list sorted by ascending
start and, within a start, descending end, so outer scopes precede the
scopes they contain (§4.4). -/
def insertScope (s : (Nat × Nat) × Option String) :
    List ((Nat × Nat) × Option String) → List ((Nat × Nat) × Option String)
  | [] => [s]
  | x :: xs =>
    if s.1.1 < x.1.1 ∨ (s.1.1 = x.1.1 ∧ x.1.2 ≤ s.1.2) then s :: x :: xs
    else x :: insertScope s xs

/-- Modelled from the spec: sort the scopes for the layering sweep (§4.4). -/
def sortScopes : List ((Nat × Nat) × Option String) →
    List ((Nat × Nat) × Option String)
  | [] => []
  | x :: xs => insertScope x (sortScopes xs)

/-- Modelled from the spec: the layering sweep of §4.4 — at each scope's
start, close the scopes that have ended, check proper nesting against the
still-active scope (an overlapping-but-not-nested pair is the only failure),
emit an entry with the new innermost result, and at the end close whatever
remains. -/
def sweep : List ((Nat × Nat) × Option String) →
    List ((Nat × Nat) × Option String) →
    Except Unit (List (Nat × ScopeLookupResult))
  | [], stack => .ok (drainAll stack)
  | s :: rest, stack =>
    let r := popFinished s.1.1 stack
    match r.2.head? with
    | some top =>
      if top.1.2 < s.1.2 then .error ()
      else
        match sweep rest (s :: r.2) with
        | .ok entries => .ok (r.1 ++ (s.1.1, scopeResult s.2) :: entries)
        | .error e => .error e
    | none =>
      match sweep rest (s :: r.2) with
      | .ok entries => .ok (r.1 ++ (s.1.1, scopeResult s.2) :: entries)
      | .error e => .error e

/-- Modelled from the spec: `ScopeIndex::new` (src/scope_index.rs is not
among the provided sources).  Per §4.4 it sorts the byte-ranged resolved
scopes and layers them into a flat sorted index, failing exactly on
overlapping-but-not-nested ranges; an empty scope list yields an empty
index and no error. -/
def scopeIndexNew (scopes : List ((Nat × Nat) × Option String)) :
    Except Unit (List (Nat × ScopeLookupResult)) :=
  sweep (sortScopes scopes) []

/-- The projection of the byte-offset scope index to source positions
(writer.rs:73-79): `offset_to_position` (the Source Context conversion of
source.rs, not among the provided sources) is abstracted as a function;
entries that fail to convert are dropped. -/
def projectIndex (offset_to_position : Nat → Option SourcePosition)
    (index : List (Nat × ScopeLookupResult)) :
    List (SourcePosition × ScopeLookupResult) :=
  index.filterMap (fun e => (offset_to_position e.1).map (fun pos => (pos, e.2)))

/-- C8: a failed parse of the minified source is recovered locally —
`parse_with_swc` returns the empty scope list instead of an error, the
(spec-modelled) scope index of the empty scope list is built without error
and is empty, its projection is empty, every lookup of a non-Hermes token
in the empty projected index yields `Unknown`, and an `Unknown` scope maps
to `GLOBAL_SCOPE_SENTINEL` as its `scope_idx` without touching the
interner. -/
theorem parse_failure_recovered_to_unknown :
    (∀ (α : Type) (collect : α → Scopes),
      parseWithSwc (Except.error ()) collect = []) ∧
    scopeIndexNew [] = Except.ok [] ∧
    (∀ offset_to_position : Nat → Option SourcePosition,
      projectIndex offset_to_position [] = []) ∧
    (∀ sp : SourcePosition, lookupScope none [] sp = ScopeLookupResult.unknown) ∧
    (∀ st : InternerState,
      scopeIdxOf ScopeLookupResult.unknown st = (GLOBAL_SCOPE_SENTINEL, st)) := by
  exact ⟨fun α collect => rfl, rfl, fun f => rfl, fun sp => rfl, fun st => rfl⟩

/-- C10: `visit_class` pushes the `"new "` interpolation to the front of the
class scope's name exactly when `name_from_ident_or_ctx` obtained a name at
all — whether from a directly owned identifier or inferred from the ancestor
context — and in particular the context-named class of `const C = class {};`
(a `ClassExpr` parent without identifier, named through its `VarDeclarator`)
renders as `"new C"`; only a class whose name inference returns `none` gets
no prefix. -/
theorem visit_class_new_prefix :
    (∀ parents : List Parent,
      visitClassName parents =
        (nameFromIdentOrCtx (classParentIdent parents) parents).map
          (fun n => NameComponent.interp "new " :: n)) ∧
    visitClassName [Parent.classExpr none, Parent.varDeclarator (some "C"),
        Parent.other] =
      some [NameComponent.interp "new ", NameComponent.ident "C"] ∧
    render [NameComponent.interp "new ", NameComponent.ident "C"] = "new C" := by
  refine ⟨fun parents => ?_, by decide, by decide⟩
  unfold visitClassName
  cases nameFromIdentOrCtx (classParentIdent parents) parents <;> rfl
